import Mathlib

/-!
Shallow embedding of the audio-conversion core of
`wopr-network/wopr-plugin-channel-discord-voice` (src/audio-converter.ts and
the speech-transcription orchestration in src/index.ts).

A Node `Buffer` is modelled as a `List Nat` of bytes.  `Buffer.readInt16LE`
and `Buffer.writeInt16LE` perform bounds / range checks and throw
`RangeError`s; they are embedded as `Except String` computations.  JavaScript
number arithmetic on the audio path is exact (the values involved are small
rationals), so it is embedded over `ℚ`; `Math.floor` becomes `Rat.floor` and
`Math.round x` becomes `Rat.floor (x + 1/2)` (JS rounds half toward +∞).
-/

/-- Decode two bytes as a little-endian signed 16-bit integer. -/
def decode16 (lo hi : Nat) : Int :=
  if lo % 256 + 256 * (hi % 256) < 32768 then ((lo % 256 + 256 * (hi % 256) : Nat) : Int)
  else ((lo % 256 + 256 * (hi % 256) : Nat) : Int) - 65536

/-- Unchecked little-endian 16-bit load at a byte offset (out-of-range bytes
read as 0); `readInt16LE` is this load guarded by the Node bounds check. -/
def peek16 (buffer : List Nat) (offset : Nat) : Int :=
  decode16 (buffer.getD offset 0) (buffer.getD (offset + 1) 0)

/-- `Buffer.readInt16LE`: bounds-checked signed 16-bit little-endian read. -/
def readInt16LE (buffer : List Nat) (offset : Nat) : Except String Int :=
  if offset + 2 ≤ buffer.length then .ok (peek16 buffer offset)
  else .error "RangeError: attempt to access memory outside buffer bounds"

/-- `Buffer.writeInt16LE`: range-checked little-endian encoding of a signed
16-bit value into its two bytes. -/
def int16Bytes (value : Int) : Except String (List Nat) :=
  if -32768 ≤ value ∧ value ≤ 32767 then
    .ok [(value % 65536).toNat % 256, (value % 65536).toNat / 256]
  else .error "RangeError: value is out of signed 16-bit range"

/-- Run a per-index byte producer for indices `0, …, n-1` in order and
concatenate the results; the error of the smallest failing index is
propagated, as in the source's sequential loops. -/
def buildBytes (f : Nat → Except String (List Nat)) : Nat → Except String (List Nat)
  | 0 => .ok []
  | n + 1 => do
    let front ← buildBytes f n
    let last ← f n
    pure (front ++ last)

/-- Extract the payload of an `ok` result (junk on `error`). -/
def okD (x : Except String (List Nat)) : List Nat :=
  match x with
  | .ok b => b
  | .error _ => []

theorem decode16_lower (lo hi : Nat) : -32768 ≤ decode16 lo hi := by
  unfold decode16
  split <;> omega

theorem decode16_upper (lo hi : Nat) : decode16 lo hi ≤ 32767 := by
  unfold decode16
  have h1 : lo % 256 < 256 := Nat.mod_lt _ (by omega)
  have h2 : hi % 256 < 256 := Nat.mod_lt _ (by omega)
  split <;> omega

theorem peek16_lower (buffer : List Nat) (offset : Nat) :
    -32768 ≤ peek16 buffer offset := decode16_lower _ _

theorem peek16_upper (buffer : List Nat) (offset : Nat) :
    peek16 buffer offset ≤ 32767 := decode16_upper _ _

theorem readInt16LE_ok (buffer : List Nat) (offset : Nat)
    (h : offset + 2 ≤ buffer.length) :
    readInt16LE buffer offset = .ok (peek16 buffer offset) := by
  unfold readInt16LE
  exact if_pos h

theorem readInt16LE_err (buffer : List Nat) (offset : Nat)
    (h : ¬ offset + 2 ≤ buffer.length) :
    readInt16LE buffer offset =
      .error "RangeError: attempt to access memory outside buffer bounds" := by
  unfold readInt16LE
  exact if_neg h

theorem int16Bytes_ok (value : Int) (h1 : -32768 ≤ value) (h2 : value ≤ 32767) :
    int16Bytes value =
      .ok [(value % 65536).toNat % 256, (value % 65536).toNat / 256] := by
  unfold int16Bytes
  rw [if_pos ⟨h1, h2⟩]

theorem int16Bytes_length (value : Int) (bs : List Nat)
    (h : int16Bytes value = .ok bs) : bs.length = 2 := by
  unfold int16Bytes at h
  split at h
  · cases h
    rfl
  · cases h

/-- Encoding a value in signed 16-bit range and decoding it gives it back. -/
theorem decode16_int16Bytes (value : Int) (h1 : -32768 ≤ value) (h2 : value ≤ 32767) :
    decode16 ((value % 65536).toNat % 256) ((value % 65536).toNat / 256)
      = value := by
  unfold decode16
  have hm : value % 65536 = value ∨ value % 65536 = value + 65536 := by omega
  split <;> omega

/-! ### `OpusToPCMConverter.downsampleAndMono` (src/audio-converter.ts:60-81) -/

/-- The mono mix of one stereo pair: `Math.floor((left + right) / 2)`. -/
def monoMix (left right : Int) : Int := Int.fdiv (left + right) 2

/-- One iteration of the downsampling loop: read the stereo pair at source
sample index `i * 3` (byte offset `i * 3 * 4`), average to mono, and encode
the mono sample. -/
def downsampleStep (buffer : List Nat) (i : Nat) : Except String (List Nat) := do
  let left ← readInt16LE buffer (i * 3 * 4)
  let right ← readInt16LE buffer (i * 3 * 4 + 2)
  int16Bytes (monoMix left right)

/-- `OpusToPCMConverter.downsampleAndMono`: 48kHz stereo s16le → 16kHz mono
s16le by decimation (every 3rd stereo pair, channels averaged).
`samplesPerChannel = byteLength / 4`, `outputSamples = ⌊samplesPerChannel / 3⌋`. -/
def downsampleAndMono (buffer : List Nat) : Except String (List Nat) :=
  buildBytes (downsampleStep buffer) (buffer.length / 4 / 3)

/-! ### `PCMToOpusConverter.resampleAndStereo` (src/audio-converter.ts:134-167) -/

/-- `Math.round` as JavaScript defines it: half-values round toward +∞. -/
def jsRound (q : ℚ) : Int := Rat.floor (q + 1 / 2)

/-- Clamp to the signed 16-bit range, as in the source:
`Math.max(-32768, Math.min(32767, sample))`. -/
def clamp16 (sample : Int) : Int := max (-32768) (min 32767 sample)

/-- One iteration of the resampling loop: locate the (fractional) source
position of output index `i`, linear-interpolate (or take the last sample, or
0 past the end), clamp, and write the result to both stereo channels. -/
def resampleFrame (ratio : ℚ) (buffer : List Nat) (i : Nat) : Except String (List Nat) := do
  let inputSamples : ℚ := (buffer.length : ℚ) / 2
  let inputPos : ℚ := (i : ℚ) / ratio
  let inputIndex : Int := Rat.floor inputPos
  let frac : ℚ := inputPos - (inputIndex : ℚ)
  let sample : Int ←
    if (inputIndex : ℚ) + 1 < inputSamples then do
      let s1 ← readInt16LE buffer (inputIndex.toNat * 2)
      let s2 ← readInt16LE buffer ((inputIndex.toNat + 1) * 2)
      pure (jsRound ((s1 : ℚ) + frac * ((s2 : ℚ) - (s1 : ℚ))))
    else if (inputIndex : ℚ) < inputSamples then
      readInt16LE buffer (inputIndex.toNat * 2)
    else
      pure 0
  let bytes ← int16Bytes (clamp16 sample)
  pure (bytes ++ bytes)

/-- `PCMToOpusConverter.resampleAndStereo`: mono s16le at an arbitrary rate →
48kHz stereo s16le by linear interpolation, `ratio = 48000 / inputSampleRate`;
`inputSamples = byteLength / 2`, `outputSamples = ⌊inputSamples * ratio⌋`. -/
def resampleAndStereo (ratio : ℚ) (buffer : List Nat) : Except String (List Nat) :=
  buildBytes (resampleFrame ratio buffer) (Rat.floor (((buffer.length : ℚ) / 2) * ratio)).toNat

/-- The constructor's `resampleRatio = 48000 / inputSampleRate`. -/
def resampleRatio (inputSampleRate : ℚ) : ℚ := 48000 / inputSampleRate

/-! ### `VADDetector` (src/audio-converter.ts:173-239) -/

/-- Configuration of a `VADDetector`. -/
structure VADConfig where
  silenceThreshold : Int
  silenceDurationMs : ℚ
  sampleRate : ℚ
deriving DecidableEq

/-- The constructor defaults: threshold 500, 1500ms of silence, 16kHz. -/
def defaultVADConfig : VADConfig := ⟨500, 1500, 16000⟩

/-- Mutable state of a `VADDetector`. -/
structure VADState where
  consecutiveSilence : Nat
  isSpeaking : Bool
deriving DecidableEq

/-- The freshly-constructed detector state. -/
def initVADState : VADState := ⟨0, false⟩

/-- The side-channel events a `VADDetector` can emit. -/
inductive VADEvent where
  | speechStart
  | speechEnd
deriving DecidableEq

/-- The running sum of `Math.abs(sample)` over the first `n` loop iterations
of `detectSilence` (sample `i` is read at byte offset `2 * i`). -/
def sumAbs (buffer : List Nat) : Nat → Except String Nat
  | 0 => .ok 0
  | n + 1 => do
    let s ← sumAbs buffer n
    let v ← readInt16LE buffer (2 * n)
    pure (s + v.natAbs)

/-- `VADDetector.detectSilence`: a chunk is silent when the average absolute
amplitude is below the threshold.  The loop condition `i < buffer.length / 2`
over a float bound runs `⌈byteLength / 2⌉` iterations, so an odd-length chunk
reads one byte past the end.  On an empty chunk the average is `0 / 0 = NaN`
and `NaN < threshold` is false, so the chunk counts as non-silent. -/
def detectSilence (silenceThreshold : Int) (buffer : List Nat) : Except String Bool := do
  let samples : Nat := (buffer.length + 1) / 2
  let sum ← sumAbs buffer samples
  if samples = 0 then pure false
  else pure (decide ((sum : ℚ) / (samples : ℚ) < (silenceThreshold : ℚ)))

/-- `VADDetector._transform`: classify the chunk, update the state, emit
events, and pass the chunk through unchanged. -/
def vadTransform (cfg : VADConfig) (st : VADState) (chunk : List Nat) :
    Except String (VADState × List VADEvent × List (List Nat)) := do
  let isSilent ← detectSilence cfg.silenceThreshold chunk
  if isSilent then
    let cs : Nat := st.consecutiveSilence + 1
    let silenceDuration : ℚ := ((cs : ℚ) * (chunk.length : ℚ)) / (cfg.sampleRate * 2)
    if silenceDuration * 1000 ≥ cfg.silenceDurationMs ∧ st.isSpeaking then
      pure (⟨cs, false⟩, [.speechEnd], [chunk])
    else
      pure (⟨cs, st.isSpeaking⟩, [], [chunk])
  else
    if st.isSpeaking then
      pure (⟨0, true⟩, [], [chunk])
    else
      pure (⟨0, true⟩, [.speechStart], [chunk])

/-- Feed a list of chunks through `vadTransform` in order, tagging each
emitted event with the index of the chunk that produced it and collecting the
chunks pushed downstream. -/
def vadRunFrom (cfg : VADConfig) (st : VADState) (idx : Nat) :
    List (List Nat) → Except String (VADState × List (Nat × VADEvent) × List (List Nat))
  | [] => .ok (st, [], [])
  | chunk :: rest => do
    let p ← vadTransform cfg st chunk
    let q ← vadRunFrom cfg p.1 (idx + 1) rest
    pure (q.1, p.2.1.map (fun e => (idx, e)) ++ q.2.1, p.2.2 ++ q.2.2)

/-- Run a detector over a chunk sequence from its first chunk. -/
def vadRun (cfg : VADConfig) (st : VADState) (chunks : List (List Nat)) :
    Except String (VADState × List (Nat × VADEvent) × List (List Nat)) :=
  vadRunFrom cfg st 0 chunks

/-- `VADDetector.reset`: clear the counter and the speaking flag; no event is
emitted. -/
def VADDetector.reset (_st : VADState) : VADState × List VADEvent :=
  (⟨0, false⟩, [])

/-- Count the tagged occurrences of one event kind in a run's event list. -/
def countEv (e : VADEvent) (evs : List (Nat × VADEvent)) : Nat :=
  (evs.filter (fun p => decide (p.2 = e))).length

/-! ### `transcribeUserSpeech` (src/index.ts:292-321) -/

/-- One entry of the `audioBuffers` map (src/index.ts). -/
structure AudioBuffer where
  chunks : List (List Nat)
  startTime : Nat
  lastChunkTime : Nat
  silenceCount : Nat
deriving DecidableEq

/-- The call handed to the STT collaborator:
`stt.transcribe(audioPCM, { format, sampleRate, language })`. -/
structure STTRequest where
  audio : List Nat
  format : String
  sampleRate : Nat
  language : String
deriving DecidableEq

/-- Delete one key from the session map (`audioBuffers.delete(bufferKey)`). -/
def deleteKey (buffers : List (String × AudioBuffer)) (key : String) :
    List (String × AudioBuffer) :=
  buffers.filter (fun kv => decide (kv.1 ≠ key))

/-- `transcribeUserSpeech`: look up the session's accumulated chunks; with no
entry or zero chunks it is a no-op; otherwise concatenate the chunks, remove
the entry, and (when an STT provider is available) hand the concatenation to
`stt.transcribe` with format `pcm_s16le`, sample rate 16000 and language
`en`.  Returns the updated map and the request made, if any. -/
def transcribeUserSpeech (buffers : List (String × AudioBuffer)) (bufferKey : String)
    (sttAvailable : Bool) : List (String × AudioBuffer) × Option STTRequest :=
  match buffers.lookup bufferKey with
  | none => (buffers, none)
  | some buffer =>
    if buffer.chunks.length = 0 then (buffers, none)
    else
      let audioPCM := buffer.chunks.flatten
      let buffers2 := deleteKey buffers bufferKey
      if sttAvailable then
        (buffers2, some ⟨audioPCM, "pcm_s16le", 16000, "en"⟩)
      else
        (buffers2, none)

/-! ### Infrastructure lemmas about `buildBytes` and flattened byte lists -/

theorem except_bind_ok {α β : Type} (a : α) (f : α → Except String β) :
    (Except.ok a >>= f : Except String β) = f a := rfl

theorem except_bind_err {α β : Type} (e : String) (f : α → Except String β) :
    (Except.error e >>= f : Except String β) = Except.error e := rfl

theorem buildBytes_ok_intro (f : Nat → Except String (List Nat)) (g : Nat → List Nat)
    (n : Nat) (h : ∀ i, i < n → f i = .ok (g i)) :
    buildBytes f n = .ok (((List.range n).map g).flatten) := by
  induction n with
  | zero => simp [buildBytes]
  | succ n ih =>
    have hn : ∀ i, i < n → f i = .ok (g i) := fun i hi => h i (Nat.lt_succ_of_lt hi)
    rw [buildBytes, ih hn, h n (Nat.lt_succ_self n)]
    rw [except_bind_ok, except_bind_ok]
    simp only [List.range_succ, List.map_append, List.map_cons, List.map_nil,
      List.flatten_append, List.flatten_cons, List.flatten_nil, List.append_nil]
    rfl

theorem buildBytes_ok_elim (f : Nat → Except String (List Nat)) (n : Nat)
    (out : List Nat) (h : buildBytes f n = .ok out) :
    (∀ i, i < n → f i = .ok (okD (f i))) ∧
      out = ((List.range n).map (fun i => okD (f i))).flatten := by
  induction n generalizing out with
  | zero =>
    rw [buildBytes] at h
    cases h
    simp
  | succ n ih =>
    rw [buildBytes] at h
    cases hfront : buildBytes f n with
    | error e => rw [hfront, except_bind_err] at h; cases h
    | ok front =>
      rw [hfront, except_bind_ok] at h
      cases hlast : f n with
      | error e => rw [hlast, except_bind_err] at h; cases h
      | ok last =>
        rw [hlast, except_bind_ok] at h
        cases h
        obtain ⟨hall, hfr⟩ := ih front hfront
        refine ⟨?_, ?_⟩
        · intro i hi
          rcases Nat.lt_succ_iff_lt_or_eq.mp hi with hi | hi
          · exact hall i hi
          · subst hi; rw [hlast]; rfl
        · rw [hfr, List.range_succ]
          simp [hlast, okD]

theorem flatten_length_fixed (L : Nat) (l : List (List Nat))
    (h : ∀ x ∈ l, x.length = L) : l.flatten.length = l.length * L := by
  induction l with
  | nil => simp
  | cons x xs ih =>
    have hx : x.length = L := h x (List.mem_cons_self x xs)
    have hxs : ∀ y ∈ xs, y.length = L := fun y hy => h y (List.mem_cons_of_mem x hy)
    simp [ih hxs, hx, Nat.succ_mul, Nat.add_comm]

theorem flatten_getD_fixed (L : Nat) (l : List (List Nat))
    (h : ∀ x ∈ l, x.length = L) (i k : Nat) (hi : i < l.length) (hk : k < L) :
    l.flatten.getD (i * L + k) 0 = (l.getD i []).getD k 0 := by
  induction l generalizing i with
  | nil => simp at hi
  | cons x xs ih =>
    have hx : x.length = L := h x (List.mem_cons_self x xs)
    have hxs : ∀ y ∈ xs, y.length = L := fun y hy => h y (List.mem_cons_of_mem x hy)
    cases i with
    | zero =>
      have hklt : k < x.length := by rw [hx]; exact hk
      simp only [List.flatten_cons, Nat.zero_mul, Nat.zero_add, List.getD_cons_zero]
      rw [List.getD_append _ _ _ _ hklt]
    | succ i =>
      have hi2 : i < xs.length := Nat.lt_of_succ_lt_succ hi
      have hoff : (i + 1) * L + k = x.length + (i * L + k) := by
        rw [hx]; ring
      simp only [List.flatten_cons, List.getD_cons_succ]
      rw [hoff, List.getD_append_right _ _ _ _ (Nat.le_add_right _ _)]
      rw [Nat.add_sub_cancel_left]
      exact ih hxs i hi2

theorem range_map_getD {α : Type} (g : Nat → α) (n i : Nat) (d : α) (hi : i < n) :
    ((List.range n).map g).getD i d = g i := by
  rw [List.getD_eq_getElem _ _ (by simpa using hi)]
  simp

/-- The two little-endian bytes of an in-range signed 16-bit value. -/
def bytes16 (v : Int) : List Nat := [(v % 65536).toNat % 256, (v % 65536).toNat / 256]

theorem int16Bytes_eq_bytes16 (v : Int) (h1 : -32768 ≤ v) (h2 : v ≤ 32767) :
    int16Bytes v = .ok (bytes16 v) := int16Bytes_ok v h1 h2

theorem bytes16_length (v : Int) : (bytes16 v).length = 2 := rfl

theorem decode16_bytes16 (v : Int) (h1 : -32768 ≤ v) (h2 : v ≤ 32767) :
    decode16 ((bytes16 v).getD 0 0) ((bytes16 v).getD 1 0) = v :=
  decode16_int16Bytes v h1 h2

/-- The mono value of output index `i`, as the source computes it. -/
def downsampleVal (buffer : List Nat) (i : Nat) : Int :=
  monoMix (peek16 buffer (i * 3 * 4)) (peek16 buffer (i * 3 * 4 + 2))

theorem monoMix_bounds (l r : Int) (hl1 : -32768 ≤ l) (hl2 : l ≤ 32767)
    (hr1 : -32768 ≤ r) (hr2 : r ≤ 32767) :
    -32768 ≤ monoMix l r ∧ monoMix l r ≤ 32767 := by
  unfold monoMix
  rw [Int.fdiv_eq_ediv _ (by omega)]
  omega

theorem downsampleVal_bounds (buffer : List Nat) (i : Nat) :
    -32768 ≤ downsampleVal buffer i ∧ downsampleVal buffer i ≤ 32767 :=
  monoMix_bounds _ _ (peek16_lower _ _) (peek16_upper _ _)
    (peek16_lower _ _) (peek16_upper _ _)

theorem downsample_outputSamples (buffer : List Nat) :
    buffer.length / 4 / 3 = buffer.length / 12 := by
  rw [Nat.div_div_eq_div_mul]

theorem downsampleStep_ok (buffer : List Nat) (i : Nat)
    (hi : i < buffer.length / 4 / 3) :
    downsampleStep buffer i = .ok (bytes16 (downsampleVal buffer i)) := by
  have h12 : i < buffer.length / 12 := by rwa [downsample_outputSamples] at hi
  have hb : (i + 1) * 12 ≤ buffer.length / 12 * 12 :=
    Nat.mul_le_mul_right 12 (Nat.succ_le_of_lt h12)
  have hb2 : buffer.length / 12 * 12 ≤ buffer.length := Nat.div_mul_le_self _ _
  have hleft : i * 3 * 4 + 2 ≤ buffer.length := by omega
  have hright : i * 3 * 4 + 2 + 2 ≤ buffer.length := by omega
  unfold downsampleStep
  rw [readInt16LE_ok _ _ hleft, except_bind_ok, readInt16LE_ok _ _ hright, except_bind_ok]
  obtain ⟨hv1, hv2⟩ := downsampleVal_bounds buffer i
  exact int16Bytes_eq_bytes16 _ hv1 hv2

/-- `downsampleAndMono` never fails: for any byte length whatsoever the loop
reads stay in bounds and the unclamped write stays in signed 16-bit range. -/
theorem downsampleAndMono_eq (buffer : List Nat) :
    downsampleAndMono buffer =
      .ok (((List.range (buffer.length / 4 / 3)).map
        (fun i => bytes16 (downsampleVal buffer i))).flatten) :=
  buildBytes_ok_intro _ _ _ (fun i hi => downsampleStep_ok buffer i hi)

theorem downsample_out_mem_len (buffer : List Nat) (x : List Nat)
    (hx : x ∈ (List.range (buffer.length / 4 / 3)).map
        (fun i => bytes16 (downsampleVal buffer i))) : x.length = 2 := by
  obtain ⟨i, _, rfl⟩ := List.mem_map.mp hx
  rfl

theorem downsampleAndMono_length (buffer out : List Nat)
    (h : downsampleAndMono buffer = .ok out) :
    out.length = buffer.length / 4 / 3 * 2 := by
  rw [downsampleAndMono_eq] at h
  cases h
  rw [flatten_length_fixed 2 _ (downsample_out_mem_len buffer)]
  simp

theorem downsampleAndMono_sample (buffer out : List Nat)
    (h : downsampleAndMono buffer = .ok out) (i : Nat)
    (hi : i < buffer.length / 4 / 3) :
    readInt16LE out (2 * i) = .ok (downsampleVal buffer i) := by
  have hlen : out.length = buffer.length / 4 / 3 * 2 := downsampleAndMono_length buffer out h
  rw [downsampleAndMono_eq] at h
  cases h
  have hbound : 2 * i + 2 ≤ buffer.length / 4 / 3 * 2 := by omega
  rw [readInt16LE_ok _ _ (by rw [hlen]; exact hbound)]
  unfold peek16
  have hmlen : ∀ x ∈ (List.range (buffer.length / 4 / 3)).map
      (fun i => bytes16 (downsampleVal buffer i)), x.length = 2 :=
    downsample_out_mem_len buffer
  have hrange : i < ((List.range (buffer.length / 4 / 3)).map
      (fun i => bytes16 (downsampleVal buffer i))).length := by simpa using hi
  have h0 := flatten_getD_fixed 2 _ hmlen i 0 hrange (by omega)
  have h1 := flatten_getD_fixed 2 _ hmlen i 1 hrange (by omega)
  rw [Nat.mul_comm 2 i] at *
  rw [show i * 2 + 0 = i * 2 by omega] at h0
  rw [h0, h1, range_map_getD _ _ _ _ hi]
  obtain ⟨hv1, hv2⟩ := downsampleVal_bounds buffer i
  rw [congrArg Except.ok (decode16_bytes16 _ hv1 hv2)]

theorem getD_zero_of_all_zero (buffer : List Nat) (h : ∀ b ∈ buffer, b = 0)
    (off : Nat) : buffer.getD off 0 = 0 := by
  rcases Nat.lt_or_ge off buffer.length with hlt | hge
  · rw [List.getD_eq_getElem _ _ hlt]
    exact h _ (List.getElem_mem hlt)
  · exact List.getD_eq_default _ _ hge

theorem peek16_all_zero (buffer : List Nat) (h : ∀ b ∈ buffer, b = 0) (off : Nat) :
    peek16 buffer off = 0 := by
  unfold peek16
  rw [getD_zero_of_all_zero buffer h, getD_zero_of_all_zero buffer h]
  decide

theorem downsampleAndMono_all_zero (buffer out : List Nat)
    (h : downsampleAndMono buffer = .ok out) (hz : ∀ b ∈ buffer, b = 0) :
    ∀ b ∈ out, b = 0 := by
  rw [downsampleAndMono_eq] at h
  cases h
  intro b hb
  obtain ⟨l, hl, hbl⟩ := List.mem_flatten.mp hb
  obtain ⟨i, _, rfl⟩ := List.mem_map.mp hl
  have hval : downsampleVal buffer i = 0 := by
    unfold downsampleVal
    rw [peek16_all_zero buffer hz, peek16_all_zero buffer hz]
    decide
  rw [hval] at hbl
  have : bytes16 0 = [0, 0] := rfl
  rw [this] at hbl
  simpa using hbl

/-! ### Success and failure of `detectSilence` -/

theorem sumAbs_ok (buffer : List Nat) (n : Nat) (h : 2 * n ≤ buffer.length) :
    ∃ s, sumAbs buffer n = .ok s := by
  induction n with
  | zero => exact ⟨0, rfl⟩
  | succ n ih =>
    obtain ⟨s, hs⟩ := ih (by omega)
    refine ⟨s + (peek16 buffer (2 * n)).natAbs, ?_⟩
    rw [sumAbs, hs, except_bind_ok, readInt16LE_ok _ _ (by omega), except_bind_ok]
    rfl

theorem sumAbs_err (buffer : List Nat) (n : Nat) (h : buffer.length < 2 * n) :
    sumAbs buffer n =
      .error "RangeError: attempt to access memory outside buffer bounds" := by
  induction n with
  | zero => omega
  | succ n ih =>
    rcases Nat.lt_or_ge buffer.length (2 * n) with hlt | hge
    · rw [sumAbs, ih hlt, except_bind_err]
    · obtain ⟨s, hs⟩ := sumAbs_ok buffer n (by omega)
      rw [sumAbs, hs, except_bind_ok, readInt16LE_err _ _ (by omega), except_bind_err]

/-- An odd-length chunk makes the `detectSilence` loop read one byte past the
end of the buffer: the read is rejected with a range error. -/
theorem detectSilence_err_of_odd (t : Int) (buffer : List Nat)
    (h : buffer.length % 2 = 1) :
    detectSilence t buffer =
      .error "RangeError: attempt to access memory outside buffer bounds" := by
  simp only [detectSilence, sumAbs_err buffer ((buffer.length + 1) / 2) (by omega),
    except_bind_err]

/-- On an even-length chunk, `detectSilence` succeeds and returns the exact
average-amplitude comparison (false on the empty chunk, where the average is
`NaN`). -/
theorem detectSilence_ok_of_even (t : Int) (buffer : List Nat)
    (h : buffer.length % 2 = 0) :
    ∃ b, detectSilence t buffer = .ok b := by
  obtain ⟨s, hs⟩ := sumAbs_ok buffer ((buffer.length + 1) / 2) (by omega)
  simp only [detectSilence, hs, except_bind_ok]
  rcases Nat.decEq ((buffer.length + 1) / 2) 0 with h0 | h0
  · exact ⟨_, by rw [if_neg h0]; rfl⟩
  · exact ⟨_, by rw [if_pos h0]; rfl⟩

/-- `Rat.floor` agrees with the floor of the `FloorRing` instance. -/
theorem rat_floor_eq (q : ℚ) : Rat.floor q = ⌊q⌋ := by
  rw [Rat.floor_def', Rat.floor_def]

/-- A failure at loop index 0 makes the whole loop fail. -/
theorem buildBytes_err_first (f : Nat → Except String (List Nat)) (e : String)
    (h : f 0 = .error e) : ∀ n, 1 ≤ n → buildBytes f n = .error e := by
  intro n hn
  induction n with
  | zero => omega
  | succ n ih =>
    rcases Nat.eq_zero_or_pos n with h0 | h0
    · subst h0
      rw [buildBytes, buildBytes, except_bind_ok, h, except_bind_err]
    · rw [buildBytes, ih h0, except_bind_err]

/-! ### C1, C2, C9: the PCM buffer stride claims -/

/-- C1 counterexample: the 2-byte buffer `[0, 1]` has a byte length that is
not a multiple of the 4-byte stereo stride, yet `downsampleAndMono` does not
fail — it succeeds and silently drops both bytes. -/
theorem c1_counterexample :
    downsampleAndMono [0, 1] = .ok [] ∧ ([0, 1] : List Nat).length % 4 ≠ 0 :=
  ⟨rfl, by decide⟩

/-- C1 (amended): only the mono VAD input fails fast on a misaligned buffer —
`detectSilence` rejects every odd-length chunk with a range error from its
out-of-bounds 16-bit read.  The stereo downsample input never fails: a byte
length that is not a multiple of 4 is silently truncated.  The upsample input
is rate-dependent: at ratio 3 (16kHz input) an odd-length buffer fails with a
range error, while at ratio 1/2 (96kHz input) it is silently truncated. -/
theorem c1_amended :
    (∀ (t : Int) (buffer : List Nat), buffer.length % 2 = 1 →
      ∃ e, detectSilence t buffer = .error e) ∧
    (∀ buffer : List Nat, ∃ out, downsampleAndMono buffer = .ok out) ∧
    (∃ e, resampleAndStereo 3 [0] = .error e) ∧
    (∃ out, resampleAndStereo (1 / 2) [0, 0, 0] = .ok out) := by
  refine ⟨fun t buffer h => ⟨_, detectSilence_err_of_odd t buffer h⟩,
    fun buffer => ⟨_, downsampleAndMono_eq buffer⟩, ?_, ?_⟩
  · refine ⟨"RangeError: attempt to access memory outside buffer bounds", ?_⟩
    have h0 : Rat.floor (((0 : Nat) : ℚ) / 3) = 0 := by rw [rat_floor_eq]; norm_num
    have hf : resampleFrame 3 [0] 0 =
        .error "RangeError: attempt to access memory outside buffer bounds" := by
      simp only [resampleFrame, h0, List.length_cons, List.length_nil]
      rw [if_neg (by push_cast; norm_num), if_pos (by push_cast; norm_num)]
      rw [readInt16LE_err _ _ (by norm_num)]
      rfl
    simp only [resampleAndStereo]
    exact buildBytes_err_first _ _ hf _ (by rw [rat_floor_eq]; norm_num)
  · refine ⟨[], ?_⟩
    simp only [resampleAndStereo]
    have hn : (Rat.floor (((List.length ([0, 0, 0] : List Nat) : ℕ) : ℚ) / 2 * (1 / 2))).toNat
        = 0 := by rw [rat_floor_eq]; norm_num
    rw [hn]
    rfl

/-- C1 witness: the odd-length chunk `[0]` at the default threshold. -/
theorem c1_amended_witness :
    ([0] : List Nat).length % 2 = 1 ∧ ∃ e, detectSilence 500 [0] = .error e :=
  ⟨by decide, c1_amended.1 500 [0] (by decide)⟩

/-- C2: for a stereo buffer whose byte length is a multiple of 4,
`downsampleAndMono` succeeds with exactly `⌊(byteLength/4)/3⌋ * 2` bytes;
output sample `i` is `⌊(left + right) / 2⌋` of the stereo pair at source
sample index `i*3` (byte offset `i*3*4`) read as signed 16-bit little-endian;
trailing samples short of a full group of 3 are dropped (the length formula);
and an all-zero input yields an all-zero output of that exact length. -/
theorem c2_downsample_spec (buffer : List Nat) (h4 : buffer.length % 4 = 0) :
    ∃ out, downsampleAndMono buffer = .ok out ∧
      out.length = buffer.length / 4 / 3 * 2 ∧
      (∀ i, i < buffer.length / 4 / 3 →
        readInt16LE out (2 * i) =
          .ok (monoMix (peek16 buffer (i * 3 * 4)) (peek16 buffer (i * 3 * 4 + 2)))) ∧
      ((∀ b ∈ buffer, b = 0) → ∀ b ∈ out, b = 0) := by
  refine ⟨_, downsampleAndMono_eq buffer, ?_, ?_, ?_⟩
  · exact downsampleAndMono_length buffer _ (downsampleAndMono_eq buffer)
  · exact fun i hi => downsampleAndMono_sample buffer _ (downsampleAndMono_eq buffer) i hi
  · exact fun hz => downsampleAndMono_all_zero buffer _ (downsampleAndMono_eq buffer) hz

/-- C2 witness: a 12-byte stereo buffer holding the pairs (1, -1), (7, 8),
(100, 200); only the first pair lands on the decimation grid. -/
theorem c2_downsample_spec_witness :
    ([1, 0, 255, 255, 7, 0, 8, 0, 100, 0, 200, 0] : List Nat).length % 4 = 0 ∧
      ∃ out, downsampleAndMono [1, 0, 255, 255, 7, 0, 8, 0, 100, 0, 200, 0] = .ok out ∧
        out.length = 2 ∧
        (∀ i, i < 1 →
          readInt16LE out (2 * i) =
            .ok (monoMix (peek16 [1, 0, 255, 255, 7, 0, 8, 0, 100, 0, 200, 0] (i * 3 * 4))
              (peek16 [1, 0, 255, 255, 7, 0, 8, 0, 100, 0, 200, 0] (i * 3 * 4 + 2)))) ∧
        ((∀ b ∈ [1, 0, 255, 255, 7, 0, 8, 0, 100, 0, 200, 0], b = 0) → ∀ b ∈ out, b = 0) :=
  ⟨by decide, c2_downsample_spec [1, 0, 255, 255, 7, 0, 8, 0, 100, 0, 200, 0] (by decide)⟩

/-- C9: the average of two in-range signed 16-bit values is itself in range,
so the unclamped `writeInt16LE` in the downsampler never receives an
out-of-range value — `downsampleAndMono` never fails on any input. -/
theorem c9_mono_in_range :
    (∀ left right : Int, -32768 ≤ left → left ≤ 32767 → -32768 ≤ right →
      right ≤ 32767 → -32768 ≤ monoMix left right ∧ monoMix left right ≤ 32767) ∧
    ∀ buffer : List Nat, ∃ out, downsampleAndMono buffer = .ok out :=
  ⟨fun l r hl1 hl2 hr1 hr2 => monoMix_bounds l r hl1 hl2 hr1 hr2,
    fun buffer => ⟨_, downsampleAndMono_eq buffer⟩⟩

/-- C9 witness: the extreme corner `left = right = -32768`. -/
theorem c9_mono_in_range_witness :
    -32768 ≤ monoMix (-32768) (-32768) ∧ monoMix (-32768) (-32768) ≤ 32767 :=
  c9_mono_in_range.1 (-32768) (-32768) (by decide) (by decide) (by decide) (by decide)

/-! ### Step equations for `vadTransform` -/

theorem vadTransform_silent_end (cfg : VADConfig) (st : VADState) (chunk : List Nat)
    (h : detectSilence cfg.silenceThreshold chunk = .ok true)
    (hsp : st.isSpeaking = true)
    (hdur : ((((st.consecutiveSilence + 1 : Nat) : ℚ) * (chunk.length : ℚ)) /
      (cfg.sampleRate * 2)) * 1000 ≥ cfg.silenceDurationMs) :
    vadTransform cfg st chunk =
      .ok (⟨st.consecutiveSilence + 1, false⟩, [.speechEnd], [chunk]) := by
  simp only [vadTransform, h, except_bind_ok, if_pos (And.intro hdur hsp), if_pos rfl]
  rfl

theorem vadTransform_silent_quiet (cfg : VADConfig) (st : VADState) (chunk : List Nat)
    (h : detectSilence cfg.silenceThreshold chunk = .ok true)
    (hno : ¬ (((((st.consecutiveSilence + 1 : Nat) : ℚ) * (chunk.length : ℚ)) /
      (cfg.sampleRate * 2)) * 1000 ≥ cfg.silenceDurationMs ∧ st.isSpeaking = true)) :
    vadTransform cfg st chunk =
      .ok (⟨st.consecutiveSilence + 1, st.isSpeaking⟩, [], [chunk]) := by
  simp only [vadTransform, h, except_bind_ok, if_true]
  rw [if_neg hno]
  rfl

theorem vadTransform_loud_speaking (cfg : VADConfig) (st : VADState) (chunk : List Nat)
    (h : detectSilence cfg.silenceThreshold chunk = .ok false)
    (hsp : st.isSpeaking = true) :
    vadTransform cfg st chunk = .ok (⟨0, true⟩, [], [chunk]) := by
  simp only [vadTransform, h, except_bind_ok, hsp]
  rfl

theorem vadTransform_loud_quiet (cfg : VADConfig) (st : VADState) (chunk : List Nat)
    (h : detectSilence cfg.silenceThreshold chunk = .ok false)
    (hsp : st.isSpeaking = false) :
    vadTransform cfg st chunk = .ok (⟨0, true⟩, [.speechStart], [chunk]) := by
  simp only [vadTransform, h, except_bind_ok, hsp]
  rfl

theorem vadTransform_err (cfg : VADConfig) (st : VADState) (chunk : List Nat) (e : String)
    (h : detectSilence cfg.silenceThreshold chunk = .error e) :
    vadTransform cfg st chunk = .error e := by
  simp only [vadTransform, h, except_bind_err]

/-! ### Run-level lemmas for the VAD -/

/-- The silence-trigger condition of `_transform`, with `cs` the incremented
counter: the estimated silence duration, in milliseconds, has reached the
configured threshold. -/
def silenceTrigger (cfg : VADConfig) (cs : Nat) (len : Nat) : Prop :=
  ((cs : ℚ) * (len : ℚ)) / (cfg.sampleRate * 2) * 1000 ≥ cfg.silenceDurationMs

instance (cfg : VADConfig) (cs len : Nat) : Decidable (silenceTrigger cfg cs len) := by
  unfold silenceTrigger
  infer_instance

/-- Exhaustive case analysis of one successful `_transform` step. -/
theorem vadTransform_ok_cases (cfg : VADConfig) (st : VADState) (chunk : List Nat)
    (r : VADState × List VADEvent × List (List Nat))
    (h : vadTransform cfg st chunk = .ok r) :
    (detectSilence cfg.silenceThreshold chunk = .ok true ∧
      ((silenceTrigger cfg (st.consecutiveSilence + 1) chunk.length ∧ st.isSpeaking = true ∧
          r = (⟨st.consecutiveSilence + 1, false⟩, [.speechEnd], [chunk])) ∨
        (¬ (silenceTrigger cfg (st.consecutiveSilence + 1) chunk.length ∧
            st.isSpeaking = true) ∧
          r = (⟨st.consecutiveSilence + 1, st.isSpeaking⟩, [], [chunk])))) ∨
    (detectSilence cfg.silenceThreshold chunk = .ok false ∧
      ((st.isSpeaking = true ∧ r = (⟨0, true⟩, [], [chunk])) ∨
        (st.isSpeaking = false ∧ r = (⟨0, true⟩, [.speechStart], [chunk])))) := by
  cases hd : detectSilence cfg.silenceThreshold chunk with
  | error e =>
    rw [vadTransform_err cfg st chunk e hd] at h
    cases h
  | ok b =>
    cases b with
    | true =>
      by_cases htr : silenceTrigger cfg (st.consecutiveSilence + 1) chunk.length ∧
          st.isSpeaking = true
      · rw [vadTransform_silent_end cfg st chunk hd htr.2 htr.1] at h
        cases h
        exact Or.inl ⟨rfl, Or.inl ⟨htr.1, htr.2, rfl⟩⟩
      · rw [vadTransform_silent_quiet cfg st chunk hd (by exact htr)] at h
        cases h
        exact Or.inl ⟨rfl, Or.inr ⟨htr, rfl⟩⟩
    | false =>
      cases hsp : st.isSpeaking with
      | true =>
        rw [vadTransform_loud_speaking cfg st chunk hd hsp] at h
        cases h
        exact Or.inr ⟨rfl, Or.inl ⟨rfl, rfl⟩⟩
      | false =>
        rw [vadTransform_loud_quiet cfg st chunk hd hsp] at h
        cases h
        exact Or.inr ⟨rfl, Or.inr ⟨rfl, rfl⟩⟩

/-- Every successful step pushes exactly its input chunk. -/
theorem vadTransform_outs (cfg : VADConfig) (st : VADState) (chunk : List Nat)
    (r : VADState × List VADEvent × List (List Nat))
    (h : vadTransform cfg st chunk = .ok r) : r.2.2 = [chunk] := by
  rcases vadTransform_ok_cases cfg st chunk r h with
    ⟨_, ⟨_, _, rfl⟩ | ⟨_, rfl⟩⟩ | ⟨_, ⟨_, rfl⟩ | ⟨_, rfl⟩⟩ <;> rfl

/-- `1` for a speaking state, `0` otherwise. -/
def b2n (b : Bool) : Nat := if b then 1 else 0

theorem countEv_append (e : VADEvent) (l1 l2 : List (Nat × VADEvent)) :
    countEv e (l1 ++ l2) = countEv e l1 + countEv e l2 := by
  unfold countEv
  rw [List.filter_append, List.length_append]

theorem countEv_map_tag (e : VADEvent) (idx : Nat) (l : List VADEvent) :
    countEv e (l.map (fun x => (idx, x))) =
      (l.filter (fun x => decide (x = e))).length := by
  unfold countEv
  induction l with
  | nil => rfl
  | cons x xs ih =>
    simp only [List.map_cons, List.filter_cons]
    rcases Decidable.em (x = e) with hx | hx
    · simp [hx, ih]
    · simp [hx, ih]

/-- One `vadRunFrom` step unfolded on a cons cell. -/
theorem vadRunFrom_cons (cfg : VADConfig) (st : VADState) (idx : Nat)
    (chunk : List Nat) (rest : List (List Nat)) :
    vadRunFrom cfg st idx (chunk :: rest) = (do
      let p ← vadTransform cfg st chunk
      let q ← vadRunFrom cfg p.1 (idx + 1) rest
      pure (q.1, p.2.1.map (fun e => (idx, e)) ++ q.2.1, p.2.2 ++ q.2.2)) := rfl

/-- Conservation of speech episodes: every `speech-start` opens an episode and
every `speech-end` closes one, so over any successful run
`#start + (initially speaking) = #end + (finally speaking)`. -/
theorem vadRun_count (cfg : VADConfig) (chunks : List (List Nat)) :
    ∀ (st : VADState) (idx : Nat)
      (st2 : VADState) (evs : List (Nat × VADEvent)) (outs : List (List Nat)),
      vadRunFrom cfg st idx chunks = .ok (st2, evs, outs) →
      countEv .speechStart evs + b2n st.isSpeaking =
        countEv .speechEnd evs + b2n st2.isSpeaking := by
  induction chunks with
  | nil =>
    intro st idx st2 evs outs h
    rw [vadRunFrom] at h
    cases h
    rfl
  | cons chunk rest ih =>
    intro st idx st2 evs outs h
    rw [vadRunFrom_cons] at h
    cases hT : vadTransform cfg st chunk with
    | error e => rw [hT, except_bind_err] at h; cases h
    | ok p =>
      rw [hT, except_bind_ok] at h
      cases hR : vadRunFrom cfg p.1 (idx + 1) rest with
      | error e => rw [hR, except_bind_err] at h; cases h
      | ok q =>
        rw [hR, except_bind_ok] at h
        cases h
        have hrec := ih p.1 (idx + 1) q.1 q.2.1 q.2.2
          (by rw [hR])
        rw [countEv_append, countEv_append, countEv_map_tag, countEv_map_tag]
        rcases vadTransform_ok_cases cfg st chunk p hT with
          ⟨_, ⟨_, hsp, hp⟩ | ⟨hno, hp⟩⟩ | ⟨_, ⟨hsp, hp⟩ | ⟨hsp, hp⟩⟩
        · rw [hp] at hrec ⊢
          simp only [b2n, hsp] at hrec ⊢
          simp at hrec ⊢
          omega
        · rw [hp] at hrec ⊢
          simp only [b2n] at hrec ⊢
          simp at hrec ⊢
          omega
        · rw [hp] at hrec ⊢
          simp only [b2n, hsp] at hrec ⊢
          simp at hrec ⊢
          omega
        · rw [hp] at hrec ⊢
          simp only [b2n, hsp] at hrec ⊢
          simp at hrec ⊢
          omega

/-- A successful run forwards exactly the input chunks, in order. -/
theorem vadRun_outs (cfg : VADConfig) (chunks : List (List Nat)) :
    ∀ (st : VADState) (idx : Nat)
      (st2 : VADState) (evs : List (Nat × VADEvent)) (outs : List (List Nat)),
      vadRunFrom cfg st idx chunks = .ok (st2, evs, outs) → outs = chunks := by
  induction chunks with
  | nil =>
    intro st idx st2 evs outs h
    rw [vadRunFrom] at h
    cases h
    rfl
  | cons chunk rest ih =>
    intro st idx st2 evs outs h
    rw [vadRunFrom_cons] at h
    cases hT : vadTransform cfg st chunk with
    | error e => rw [hT, except_bind_err] at h; cases h
    | ok p =>
      rw [hT, except_bind_ok] at h
      cases hR : vadRunFrom cfg p.1 (idx + 1) rest with
      | error e => rw [hR, except_bind_err] at h; cases h
      | ok q =>
        rw [hR, except_bind_ok] at h
        cases h
        rw [vadTransform_outs cfg st chunk p hT,
          ih p.1 (idx + 1) q.1 q.2.1 q.2.2 (by rw [hR])]
        rfl

/-- From a non-speaking state, a run of silent chunks only increments the
counter: no event is emitted and every chunk is forwarded. -/
theorem vadRunFrom_silent (cfg : VADConfig) (chunks : List (List Nat)) :
    ∀ (cs idx : Nat),
      (∀ c ∈ chunks, detectSilence cfg.silenceThreshold c = .ok true) →
      vadRunFrom cfg ⟨cs, false⟩ idx chunks =
        .ok (⟨cs + chunks.length, false⟩, [], chunks) := by
  induction chunks with
  | nil => intro cs idx _; rw [vadRunFrom]; rfl
  | cons chunk rest ih =>
    intro cs idx hall
    have hstep := vadTransform_silent_quiet cfg ⟨cs, false⟩ chunk
      (hall chunk (List.mem_cons_self chunk rest)) (by simp)
    rw [vadRunFrom_cons, hstep, except_bind_ok,
      ih (cs + 1) (idx + 1) (fun c hc => hall c (List.mem_cons_of_mem chunk hc)),
      except_bind_ok]
    simp only [List.length_cons, List.map_nil, List.nil_append]
    rw [show cs + 1 + rest.length = cs + (rest.length + 1) by omega]
    rfl

/-- From a fresh state, silent chunks followed by one non-silent chunk emit
exactly one event: a `speech-start` tagged with the non-silent chunk's index. -/
theorem vadRunFrom_first_loud (cfg : VADConfig) (pre : List (List Nat)) (c : List Nat) :
    ∀ (cs idx : Nat),
      (∀ x ∈ pre, detectSilence cfg.silenceThreshold x = .ok true) →
      detectSilence cfg.silenceThreshold c = .ok false →
      vadRunFrom cfg ⟨cs, false⟩ idx (pre ++ [c]) =
        .ok (⟨0, true⟩, [(idx + pre.length, .speechStart)], pre ++ [c]) := by
  induction pre with
  | nil =>
    intro cs idx _ hc
    have hstep := vadTransform_loud_quiet cfg ⟨cs, false⟩ c hc rfl
    rw [List.nil_append, vadRunFrom_cons, hstep, except_bind_ok]
    rw [show (({ consecutiveSilence := 0, isSpeaking := true } : VADState),
      [VADEvent.speechStart], [c]).1 = ⟨0, true⟩ from rfl]
    rw [vadRunFrom, except_bind_ok]
    rfl
  | cons x pre ih =>
    intro cs idx hall hc
    have hstep := vadTransform_silent_quiet cfg ⟨cs, false⟩ x
      (hall x (List.mem_cons_self x pre)) (by simp)
    rw [List.cons_append, vadRunFrom_cons, hstep, except_bind_ok,
      ih (cs + 1) (idx + 1) (fun y hy => hall y (List.mem_cons_of_mem x hy)) hc,
      except_bind_ok]
    simp only [List.map_nil, List.nil_append, List.length_cons]
    rw [show idx + 1 + pre.length = idx + (pre.length + 1) by omega]
    rfl

/-- Concrete evaluation principle: a chunk whose sample-sum is known is
classified by the exact average comparison. -/
theorem detectSilence_true (t : Int) (buffer : List Nat) (s : Nat)
    (hs : sumAbs buffer ((buffer.length + 1) / 2) = .ok s)
    (h0 : (buffer.length + 1) / 2 ≠ 0)
    (hcmp : (s : ℚ) / (((buffer.length + 1) / 2 : ℕ) : ℚ) < (t : ℚ)) :
    detectSilence t buffer = .ok true := by
  simp only [detectSilence, hs, except_bind_ok]
  rw [if_neg h0, decide_eq_true hcmp]
  rfl

theorem detectSilence_false (t : Int) (buffer : List Nat) (s : Nat)
    (hs : sumAbs buffer ((buffer.length + 1) / 2) = .ok s)
    (h0 : (buffer.length + 1) / 2 ≠ 0)
    (hcmp : ¬ (s : ℚ) / (((buffer.length + 1) / 2 : ℕ) : ℚ) < (t : ℚ)) :
    detectSilence t buffer = .ok false := by
  simp only [detectSilence, hs, except_bind_ok]
  rw [if_neg h0, decide_eq_false hcmp]
  rfl

/-- C4: over any successful step, `speech-end` is emitted exactly when the
chunk is silent, the state is Speaking, and the duration estimate
`(consecutiveSilentChunks+1) * chunkByteLength / (sampleRate * 2)` seconds,
in milliseconds, reaches `silenceDurationMs` (so never while the accumulated
estimate is strictly below the threshold); emitting it leaves the Speaking
state, and a silent chunk in the Silent state only increments the counter and
emits nothing.  Over any successful run, episodes are conserved:
`#speech-start + (initially speaking) = #speech-end + (finally speaking)`,
so each episode emits `speech-end` at most once. -/
theorem c4_speech_end_spec :
    (∀ (cfg : VADConfig) (st : VADState) (chunk : List Nat)
        (st2 : VADState) (evs : List VADEvent) (outs : List (List Nat)),
        vadTransform cfg st chunk = .ok (st2, evs, outs) →
        ((VADEvent.speechEnd ∈ evs ↔
            detectSilence cfg.silenceThreshold chunk = .ok true ∧
              st.isSpeaking = true ∧
              silenceTrigger cfg (st.consecutiveSilence + 1) chunk.length) ∧
          (VADEvent.speechEnd ∈ evs → st2.isSpeaking = false) ∧
          (detectSilence cfg.silenceThreshold chunk = .ok true → st.isSpeaking = false →
            st2 = ⟨st.consecutiveSilence + 1, false⟩ ∧ evs = []))) ∧
    (∀ (cfg : VADConfig) (st : VADState) (chunks : List (List Nat))
        (st2 : VADState) (evs : List (Nat × VADEvent)) (outs : List (List Nat)),
        vadRun cfg st chunks = .ok (st2, evs, outs) →
        countEv .speechStart evs + b2n st.isSpeaking =
          countEv .speechEnd evs + b2n st2.isSpeaking) := by
  constructor
  · intro cfg st chunk st2 evs outs h
    rcases vadTransform_ok_cases cfg st chunk (st2, evs, outs) h with
      ⟨hd, ⟨htr, hsp, hp⟩ | ⟨hno, hp⟩⟩ | ⟨hd, ⟨hsp, hp⟩ | ⟨hsp, hp⟩⟩ <;>
      (simp only [Prod.mk.injEq] at hp; obtain ⟨h1, h2, h3⟩ := hp)
    · refine ⟨?_, ?_, ?_⟩
      · rw [h2]
        exact ⟨fun _ => ⟨hd, hsp, htr⟩, fun _ => List.mem_singleton.mpr rfl⟩
      · intro _; rw [h1]
      · intro _ hspf; rw [hsp] at hspf; cases hspf
    · refine ⟨?_, ?_, ?_⟩
      · rw [h2]
        refine ⟨fun hmem => absurd hmem (List.not_mem_nil _), ?_⟩
        rintro ⟨_, hspk, htrig⟩
        exact absurd ⟨htrig, hspk⟩ hno
      · intro hmem; rw [h2] at hmem; exact absurd hmem (List.not_mem_nil _)
      · intro _ hspf
        rw [hspf] at h1
        exact ⟨h1, h2⟩
    · refine ⟨?_, ?_, ?_⟩
      · rw [h2]
        refine ⟨fun hmem => absurd hmem (List.not_mem_nil _), ?_⟩
        rintro ⟨hdet, _, _⟩
        cases (hd.symm.trans hdet)
      · intro hmem; rw [h2] at hmem; exact absurd hmem (List.not_mem_nil _)
      · intro hdet _; cases (hd.symm.trans hdet)
    · refine ⟨?_, ?_, ?_⟩
      · rw [h2]
        refine ⟨fun hmem => ?_, ?_⟩
        · rcases List.mem_singleton.mp hmem with h'
          cases h'
        · rintro ⟨hdet, _, _⟩
          cases (hd.symm.trans hdet)
      · intro hmem
        rw [h2] at hmem
        rcases List.mem_singleton.mp hmem with h'
        cases h'
      · intro hdet _; cases (hd.symm.trans hdet)
  · intro cfg st chunks st2 evs outs h
    exact vadRun_count cfg chunks st 0 st2 evs outs h

/-- C4 witness: at 16kHz with the default 1500ms threshold, the 24000th
consecutive silent 2-byte chunk while Speaking reaches an estimate of exactly
1500ms and emits `speech-end`. -/
theorem c4_speech_end_spec_witness :
    (VADEvent.speechEnd ∈ [VADEvent.speechEnd] ↔
        detectSilence defaultVADConfig.silenceThreshold [0, 0] = .ok true ∧
          (VADState.mk 23999 true).isSpeaking = true ∧
          silenceTrigger defaultVADConfig (23999 + 1) (List.length [0, 0])) ∧
      (VADEvent.speechEnd ∈ [VADEvent.speechEnd] →
        (VADState.mk 24000 false).isSpeaking = false) ∧
      (detectSilence defaultVADConfig.silenceThreshold [0, 0] = .ok true →
        (VADState.mk 23999 true).isSpeaking = false →
        VADState.mk 24000 false = ⟨23999 + 1, false⟩ ∧
          [VADEvent.speechEnd] = ([] : List VADEvent)) :=
  c4_speech_end_spec.1 defaultVADConfig ⟨23999, true⟩ [0, 0] ⟨24000, false⟩
    [VADEvent.speechEnd] [[0, 0]]
    (vadTransform_silent_end defaultVADConfig ⟨23999, true⟩ [0, 0]
      (detectSilence_true 500 [0, 0] 0 rfl (by norm_num) (by norm_num))
      rfl
      (by simp only [defaultVADConfig]; norm_num))

/-- C5: on a fresh (or just-reset) detector, a run of silent chunks followed
by the first non-silent chunk emits exactly one event — `speech-start`,
tagged with that chunk's index — and ends Speaking with a zeroed counter; a
non-silent chunk while already Speaking emits nothing and zeroes the
counter. -/
theorem c5_speech_start_spec :
    (∀ (cfg : VADConfig) (pre : List (List Nat)) (c : List Nat)
        (st2 : VADState) (evs : List (Nat × VADEvent)) (outs : List (List Nat)),
        (∀ x ∈ pre, detectSilence cfg.silenceThreshold x = .ok true) →
        detectSilence cfg.silenceThreshold c = .ok false →
        vadRun cfg initVADState (pre ++ [c]) = .ok (st2, evs, outs) →
        evs = [(pre.length, .speechStart)] ∧ st2 = ⟨0, true⟩) ∧
    (∀ (cfg : VADConfig) (st : VADState) (chunk : List Nat)
        (st2 : VADState) (evs : List VADEvent) (outs : List (List Nat)),
        st.isSpeaking = true →
        detectSilence cfg.silenceThreshold chunk = .ok false →
        vadTransform cfg st chunk = .ok (st2, evs, outs) →
        evs = [] ∧ st2 = ⟨0, true⟩) := by
  constructor
  · intro cfg pre c st2 evs outs hpre hc hrun
    unfold vadRun initVADState at hrun
    rw [vadRunFrom_first_loud cfg pre c 0 0 hpre hc] at hrun
    injection hrun with hrun
    rw [Prod.mk.injEq, Prod.mk.injEq] at hrun
    obtain ⟨h1, h2, _⟩ := hrun
    rw [Nat.zero_add] at h2
    exact ⟨h2.symm, h1.symm⟩
  · intro cfg st chunk st2 evs outs hsp hc h
    rw [vadTransform_loud_speaking cfg st chunk hc hsp] at h
    injection h with h
    rw [Prod.mk.injEq, Prod.mk.injEq] at h
    obtain ⟨h1, h2, _⟩ := h
    exact ⟨h2.symm, h1.symm⟩

/-- C5 witness: one silent chunk then the first non-silent chunk (an empty
chunk, classified as speech): exactly one `speech-start`, at index 1. -/
theorem c5_speech_start_spec_witness :
    [(1, VADEvent.speechStart)] = [((List.length [([0, 0] : List Nat)]), VADEvent.speechStart)] ∧
      (VADState.mk 0 true) = (⟨0, true⟩ : VADState) :=
  c5_speech_start_spec.1 defaultVADConfig [[0, 0]] [] ⟨0, true⟩
    [(1, VADEvent.speechStart)] [[0, 0], []]
    (by
      intro x hx
      rw [List.mem_singleton.mp hx]
      exact detectSilence_true 500 [0, 0] 0 rfl (by norm_num) (by norm_num))
    rfl
    (vadRunFrom_first_loud defaultVADConfig [[0, 0]] [] 0 0
      (by
        intro x hx
        rw [List.mem_singleton.mp hx]
        exact detectSilence_true 500 [0, 0] 0 rfl (by norm_num) (by norm_num))
      rfl)

/-- C6: the detector is a non-lossy observer — every successful run forwards
the input chunks downstream byte-for-byte unchanged and in order. -/
theorem c6_vad_pass_through :
    ∀ (cfg : VADConfig) (st : VADState) (chunks : List (List Nat))
      (st2 : VADState) (evs : List (Nat × VADEvent)) (outs : List (List Nat)),
      vadRun cfg st chunks = .ok (st2, evs, outs) → outs = chunks :=
  fun cfg st chunks st2 evs outs h => vadRun_outs cfg chunks st 0 st2 evs outs h

/-- C6 witness: a silent chunk followed by a non-silent chunk are both
forwarded unchanged. -/
theorem c6_vad_pass_through_witness : [[0, 0], ([] : List Nat)] = [[0, 0], []] :=
  c6_vad_pass_through defaultVADConfig initVADState [[0, 0], []] ⟨0, true⟩
    [(1, VADEvent.speechStart)] [[0, 0], []]
    (vadRunFrom_first_loud defaultVADConfig [[0, 0]] [] 0 0
      (by
        intro x hx
        rw [List.mem_singleton.mp hx]
        exact detectSilence_true 500 [0, 0] 0 rfl (by norm_num) (by norm_num))
      rfl)

/-- C7: `reset()` zeroes the counter, clears the Speaking flag, emits no
event and changes nothing else; afterwards silence of any length emits no
event at all (in particular no `speech-end`) until a new speech-start. -/
theorem c7_reset_spec :
    (∀ st : VADState, VADDetector.reset st = (⟨0, false⟩, [])) ∧
    (∀ (cfg : VADConfig) (chunks : List (List Nat)) (st : VADState),
        (∀ c ∈ chunks, detectSilence cfg.silenceThreshold c = .ok true) →
        vadRun cfg (VADDetector.reset st).1 chunks =
          .ok (⟨chunks.length, false⟩, [], chunks)) := by
  refine ⟨fun _ => rfl, ?_⟩
  intro cfg chunks st hall
  have h := vadRunFrom_silent cfg chunks 0 0 hall
  rw [Nat.zero_add] at h
  exact h

/-- C7 witness: three silent chunks after a reset from a Speaking state with
a large counter: no event, however long the silence. -/
theorem c7_reset_spec_witness :
    vadRun defaultVADConfig (VADDetector.reset ⟨99, true⟩).1 [[0, 0], [0, 0], [0, 0]] =
      .ok (⟨List.length [([0, 0] : List Nat), [0, 0], [0, 0]], false⟩, [],
        [[0, 0], [0, 0], [0, 0]]) :=
  c7_reset_spec.2 defaultVADConfig [[0, 0], [0, 0], [0, 0]] ⟨99, true⟩
    (by
      intro c hc
      have hx : c = [0, 0] := by simpa using hc
      rw [hx]
      exact detectSilence_true 500 [0, 0] 0 rfl (by norm_num) (by norm_num))

/-- C10: an empty chunk's average amplitude is `0 / 0 = NaN`, and
`NaN < threshold` is false, so the empty chunk is classified as non-silent:
on a Silent detector it emits `speech-start` and zeroes the counter. -/
theorem c10_empty_chunk_is_speech :
    (∀ t : Int, detectSilence t [] = .ok false) ∧
    (∀ (cfg : VADConfig) (st : VADState), st.isSpeaking = false →
      vadTransform cfg st [] = .ok (⟨0, true⟩, [.speechStart], [[]])) :=
  ⟨fun _ => rfl, fun cfg st hsp => vadTransform_loud_quiet cfg st [] rfl hsp⟩

/-- C10 witness: a Silent state with a nonzero counter. -/
theorem c10_empty_chunk_is_speech_witness :
    vadTransform defaultVADConfig ⟨3, false⟩ [] =
      .ok (⟨0, true⟩, [.speechStart], [[]]) :=
  c10_empty_chunk_is_speech.2 defaultVADConfig ⟨3, false⟩ rfl

/-! ### C3: the upsampler -/

theorem except_pure_bind {α β : Type} (a : α) (f : α → Except String β) :
    ((pure a : Except String α) >>= f) = f a := rfl

theorem clamp16_bounds (sample : Int) :
    -32768 ≤ clamp16 sample ∧ clamp16 sample ≤ 32767 := by
  unfold clamp16
  rcases le_total sample (-32768) with h | h
  · rcases le_total 32767 sample with h2 | h2 <;> simp [max_def, min_def] <;> omega
  · rcases le_total 32767 sample with h2 | h2 <;> simp [max_def, min_def] <;> omega

theorem clamp16_eq_self (sample : Int) (h1 : -32768 ≤ sample) (h2 : sample ≤ 32767) :
    clamp16 sample = sample := by
  unfold clamp16
  rw [min_eq_right h2, max_eq_right h1]

/-- The value the resampling loop computes for output index `i` (on inputs
where its reads are in bounds): linear interpolation `round(s1 + frac*(s2-s1))`
while a successor sample exists, the bare last sample `s1` when only
`inputIndex` is in range, `0` past the end — clamped to `[-32768, 32767]`. -/
def resampleSampleVal (ratio : ℚ) (buffer : List Nat) (i : Nat) : Int :=
  let inputSamples : ℚ := (buffer.length : ℚ) / 2
  let inputPos : ℚ := (i : ℚ) / ratio
  let inputIndex : Int := Rat.floor inputPos
  let frac : ℚ := inputPos - (inputIndex : ℚ)
  let s1 : Int := peek16 buffer (inputIndex.toNat * 2)
  let s2 : Int := peek16 buffer ((inputIndex.toNat + 1) * 2)
  let sample : Int :=
    if (inputIndex : ℚ) + 1 < inputSamples then
      jsRound ((s1 : ℚ) + frac * ((s2 : ℚ) - (s1 : ℚ)))
    else if (inputIndex : ℚ) < inputSamples then s1
    else 0
  clamp16 sample

/-- On an even-length (sample-aligned) buffer and a positive ratio, every
loop iteration succeeds and writes its clamped sample to both channels. -/
theorem resampleFrame_ok (ratio : ℚ) (buffer : List Nat) (i : Nat)
    (hratio : 0 < ratio) (heven : buffer.length % 2 = 0) :
    resampleFrame ratio buffer i =
      .ok (bytes16 (resampleSampleVal ratio buffer i) ++
        bytes16 (resampleSampleVal ratio buffer i)) := by
  have hii0 : 0 ≤ Rat.floor ((i : ℚ) / ratio) := by
    rw [rat_floor_eq]
    exact Int.le_floor.mpr (by positivity)
  obtain ⟨m, hm⟩ : ∃ m : ℕ, Rat.floor ((i : ℚ) / ratio) = (m : ℤ) :=
    ⟨_, (Int.toNat_of_nonneg hii0).symm⟩
  simp only [resampleFrame, resampleSampleVal, hm, Int.toNat_natCast, Int.cast_natCast]
  by_cases hA : (m : ℚ) + 1 < (buffer.length : ℚ) / 2
  · have h2 : ((m : ℚ) + 1) * 2 < (buffer.length : ℚ) :=
      (lt_div_iff₀ (by norm_num : (0 : ℚ) < 2)).mp hA
    have hmlt : 2 * m + 2 < buffer.length := by
      have : ((2 * m + 2 : ℕ) : ℚ) < ((buffer.length : ℕ) : ℚ) := by push_cast; linarith
      exact_mod_cast this
    have hr1 : m * 2 + 2 ≤ buffer.length := by omega
    have hr2 : (m + 1) * 2 + 2 ≤ buffer.length := by omega
    rw [if_pos hA, if_pos hA, readInt16LE_ok _ _ hr1, except_bind_ok,
      readInt16LE_ok _ _ hr2, except_bind_ok, except_pure_bind]
    obtain ⟨hc1, hc2⟩ := clamp16_bounds (jsRound ((peek16 buffer (m * 2) : ℚ) +
      ((i : ℚ) / ratio - (m : ℚ)) *
        ((peek16 buffer ((m + 1) * 2) : ℚ) - (peek16 buffer (m * 2) : ℚ))))
    rw [int16Bytes_eq_bytes16 _ hc1 hc2, except_bind_ok]
    rfl
  · by_cases hB : (m : ℚ) < (buffer.length : ℚ) / 2
    · have h2 : (m : ℚ) * 2 < (buffer.length : ℚ) :=
        (lt_div_iff₀ (by norm_num : (0 : ℚ) < 2)).mp hB
      have hmlt : 2 * m < buffer.length := by
        have : ((2 * m : ℕ) : ℚ) < ((buffer.length : ℕ) : ℚ) := by push_cast; linarith
        exact_mod_cast this
      have hr1 : m * 2 + 2 ≤ buffer.length := by omega
      rw [if_neg hA, if_neg hA, if_pos hB, if_pos hB,
        readInt16LE_ok _ _ hr1, except_bind_ok]
      obtain ⟨hc1, hc2⟩ := clamp16_bounds (peek16 buffer (m * 2))
      rw [int16Bytes_eq_bytes16 _ hc1 hc2, except_bind_ok]
      rfl
    · rw [if_neg hA, if_neg hA, if_neg hB, if_neg hB, except_pure_bind]
      obtain ⟨hc1, hc2⟩ := clamp16_bounds 0
      rw [int16Bytes_eq_bytes16 _ hc1 hc2, except_bind_ok]
      rfl

/-- The number of output frames: `⌊inputSamples * ratio⌋`. -/
def outputSamples (ratio : ℚ) (buffer : List Nat) : Nat :=
  (Rat.floor (((buffer.length : ℚ) / 2) * ratio)).toNat

theorem resampleAndStereo_eq (ratio : ℚ) (buffer : List Nat)
    (hratio : 0 < ratio) (heven : buffer.length % 2 = 0) :
    resampleAndStereo ratio buffer =
      .ok (((List.range (outputSamples ratio buffer)).map
        (fun i => bytes16 (resampleSampleVal ratio buffer i) ++
          bytes16 (resampleSampleVal ratio buffer i))).flatten) :=
  buildBytes_ok_intro _ _ _ (fun i _ => resampleFrame_ok ratio buffer i hratio heven)

theorem resample_out_mem_len (ratio : ℚ) (buffer : List Nat) (x : List Nat)
    (hx : x ∈ (List.range (outputSamples ratio buffer)).map
        (fun i => bytes16 (resampleSampleVal ratio buffer i) ++
          bytes16 (resampleSampleVal ratio buffer i))) : x.length = 4 := by
  obtain ⟨i, _, rfl⟩ := List.mem_map.mp hx
  rfl

theorem resampleAndStereo_length (ratio : ℚ) (buffer out : List Nat)
    (hratio : 0 < ratio) (heven : buffer.length % 2 = 0)
    (h : resampleAndStereo ratio buffer = .ok out) :
    out.length = outputSamples ratio buffer * 4 := by
  rw [resampleAndStereo_eq ratio buffer hratio heven] at h
  cases h
  rw [flatten_length_fixed 4 _ (resample_out_mem_len ratio buffer)]
  simp

theorem resampleAndStereo_sample (ratio : ℚ) (buffer out : List Nat)
    (hratio : 0 < ratio) (heven : buffer.length % 2 = 0)
    (h : resampleAndStereo ratio buffer = .ok out) (i : Nat)
    (hi : i < outputSamples ratio buffer) :
    readInt16LE out (i * 4) = .ok (resampleSampleVal ratio buffer i) ∧
      readInt16LE out (i * 4 + 2) = .ok (resampleSampleVal ratio buffer i) := by
  have hlen : out.length = outputSamples ratio buffer * 4 :=
    resampleAndStereo_length ratio buffer out hratio heven h
  rw [resampleAndStereo_eq ratio buffer hratio heven] at h
  cases h
  have hmlen := resample_out_mem_len ratio buffer
  have hrange : i < ((List.range (outputSamples ratio buffer)).map
      (fun i => bytes16 (resampleSampleVal ratio buffer i) ++
        bytes16 (resampleSampleVal ratio buffer i))).length := by simpa using hi
  have h0 := flatten_getD_fixed 4 _ hmlen i 0 hrange (by omega)
  have h1 := flatten_getD_fixed 4 _ hmlen i 1 hrange (by omega)
  have h2 := flatten_getD_fixed 4 _ hmlen i 2 hrange (by omega)
  have h3 := flatten_getD_fixed 4 _ hmlen i 3 hrange (by omega)
  rw [show i * 4 + 0 = i * 4 by omega] at h0
  rw [range_map_getD _ _ _ _ hi] at h0 h1 h2 h3
  constructor
  · rw [readInt16LE_ok _ _ (by rw [hlen]; omega)]
    unfold peek16
    rw [h0, h1]
    have hb := decode16_bytes16 (resampleSampleVal ratio buffer i) ?lo ?hi
    · rw [show (bytes16 (resampleSampleVal ratio buffer i) ++
        bytes16 (resampleSampleVal ratio buffer i)).getD 0 0 =
          (bytes16 (resampleSampleVal ratio buffer i)).getD 0 0 from rfl,
        show (bytes16 (resampleSampleVal ratio buffer i) ++
        bytes16 (resampleSampleVal ratio buffer i)).getD 1 0 =
          (bytes16 (resampleSampleVal ratio buffer i)).getD 1 0 from rfl, hb]
    case lo => exact (clamp16_bounds _).1
    case hi => exact (clamp16_bounds _).2
  · rw [readInt16LE_ok _ _ (by rw [hlen]; omega)]
    unfold peek16
    rw [show i * 4 + 2 + 1 = i * 4 + 3 by omega, h2, h3]
    have hb := decode16_bytes16 (resampleSampleVal ratio buffer i) ?lo ?hi
    · rw [show (bytes16 (resampleSampleVal ratio buffer i) ++
        bytes16 (resampleSampleVal ratio buffer i)).getD 2 0 =
          (bytes16 (resampleSampleVal ratio buffer i)).getD 0 0 from rfl,
        show (bytes16 (resampleSampleVal ratio buffer i) ++
        bytes16 (resampleSampleVal ratio buffer i)).getD 3 0 =
          (bytes16 (resampleSampleVal ratio buffer i)).getD 1 0 from rfl, hb]
    case lo => exact (clamp16_bounds _).1
    case hi => exact (clamp16_bounds _).2

theorem resampleAndStereo_nil (ratio : ℚ) : resampleAndStereo ratio [] = .ok [] := by
  have h0 : (Rat.floor (((List.length ([] : List Nat) : ℕ) : ℚ) / 2 * ratio)).toNat = 0 := by
    rw [rat_floor_eq]
    norm_num
  simp only [resampleAndStereo]
  rw [h0]
  rfl

theorem resampleSampleVal_zero (buffer : List Nat) (hl : buffer.length = 20) :
    resampleSampleVal 3 buffer 0 = peek16 buffer 0 := by
  have hfl : Rat.floor (((0 : ℕ) : ℚ) / 3) = 0 := by rw [rat_floor_eq]; norm_num
  simp only [resampleSampleVal, hl, hfl]
  rw [if_pos (by push_cast; norm_num)]
  have hz : ((0 : ℤ).toNat * 2 : ℕ) = 0 := rfl
  rw [hz]
  have hfrac : (((0 : ℕ) : ℚ) / 3 - ((0 : ℤ) : ℚ)) = 0 := by push_cast; norm_num
  rw [hfrac, zero_mul, add_zero]
  have hround : jsRound ((peek16 buffer 0 : ℤ) : ℚ) = peek16 buffer 0 := by
    unfold jsRound
    rw [rat_floor_eq, Int.floor_int_add]
    norm_num
  rw [hround]
  exact clamp16_eq_self _ (peek16_lower _ _) (peek16_upper _ _)

/-- C3: for positive rates (`ratio = outputRate / inputRate`) and a
sample-aligned mono buffer, the upsampler succeeds with exactly
`⌊inputSamples * ratio⌋` four-byte stereo frames, and the 16-bit value at
both channel slots of frame `i` is `resampleSampleVal` — the claim's
interpolate / last-sample / zero case split, clamped to `[-32768, 32767]`.
An empty input gives an empty output at any ratio, and 10 samples at ratio 3
(16000Hz → 48000Hz) give 120 bytes whose frame 0 carries input sample 0 on
both channels. -/
theorem c3_resample_spec :
    (∀ inputRate outputRate : ℚ, 0 < inputRate → 0 < outputRate →
      ∀ buffer : List Nat, buffer.length % 2 = 0 →
        ∃ out, resampleAndStereo (outputRate / inputRate) buffer = .ok out ∧
          out.length = outputSamples (outputRate / inputRate) buffer * 4 ∧
          ∀ i, i < outputSamples (outputRate / inputRate) buffer →
            readInt16LE out (i * 4) =
              .ok (resampleSampleVal (outputRate / inputRate) buffer i) ∧
            readInt16LE out (i * 4 + 2) =
              .ok (resampleSampleVal (outputRate / inputRate) buffer i)) ∧
    (∀ ratio : ℚ, resampleAndStereo ratio [] = .ok []) ∧
    (∀ buffer : List Nat, buffer.length = 20 →
      ∃ out, resampleAndStereo 3 buffer = .ok out ∧ out.length = 120 ∧
        readInt16LE out 0 = .ok (peek16 buffer 0) ∧
        readInt16LE out 2 = .ok (peek16 buffer 0)) := by
  refine ⟨?_, resampleAndStereo_nil, ?_⟩
  · intro inputRate outputRate hin hout buffer heven
    have hr : 0 < outputRate / inputRate := div_pos hout hin
    exact ⟨_, resampleAndStereo_eq _ buffer hr heven,
      resampleAndStereo_length _ buffer _ hr heven (resampleAndStereo_eq _ buffer hr heven),
      fun i hi => resampleAndStereo_sample _ buffer _ hr heven
        (resampleAndStereo_eq _ buffer hr heven) i hi⟩
  · intro buffer hl
    have heven : buffer.length % 2 = 0 := by rw [hl]
    have hr : (0 : ℚ) < 3 := by norm_num
    have hn : outputSamples 3 buffer = 30 := by
      unfold outputSamples
      rw [hl, rat_floor_eq]
      norm_num
      rfl
    have heq := resampleAndStereo_eq 3 buffer hr heven
    have hlen := resampleAndStereo_length 3 buffer _ hr heven heq
    have hsam := resampleAndStereo_sample 3 buffer _ hr heven heq 0 (by omega)
    refine ⟨_, heq, by rw [hlen, hn], ?_, ?_⟩
    · have h := hsam.1
      rw [show (0 : ℕ) * 4 = 0 from rfl, resampleSampleVal_zero buffer hl] at h
      exact h
    · have h := hsam.2
      rw [show (0 : ℕ) * 4 + 2 = 2 from rfl, resampleSampleVal_zero buffer hl] at h
      exact h

/-- C3 witness: 20 zero bytes (10 mono samples) from 16000Hz to 48000Hz. -/
theorem c3_resample_spec_witness :
    (0 : ℚ) < 16000 ∧ (0 : ℚ) < 48000 ∧
      (List.replicate 20 0 : List Nat).length % 2 = 0 ∧
      (∃ out, resampleAndStereo ((48000 : ℚ) / 16000) (List.replicate 20 0) = .ok out ∧
        out.length = outputSamples ((48000 : ℚ) / 16000) (List.replicate 20 0) * 4 ∧
        ∀ i, i < outputSamples ((48000 : ℚ) / 16000) (List.replicate 20 0) →
          readInt16LE out (i * 4) =
            .ok (resampleSampleVal ((48000 : ℚ) / 16000) (List.replicate 20 0) i) ∧
          readInt16LE out (i * 4 + 2) =
            .ok (resampleSampleVal ((48000 : ℚ) / 16000) (List.replicate 20 0) i)) ∧
      (∃ out, resampleAndStereo 3 (List.replicate 20 0) = .ok out ∧ out.length = 120 ∧
        readInt16LE out 0 = .ok (peek16 (List.replicate 20 0) 0) ∧
        readInt16LE out 2 = .ok (peek16 (List.replicate 20 0) 0)) :=
  ⟨by norm_num, by norm_num, by simp,
    c3_resample_spec.1 16000 48000 (by norm_num) (by norm_num)
      (List.replicate 20 0) (by simp),
    c3_resample_spec.2.2 (List.replicate 20 0) (by simp)⟩

/-! ### C8: speech-end transcription hand-off -/

/-- C8: when speech-end fires and the session has accumulated chunks, they
are concatenated in arrival order into one contiguous buffer, the session's
map entry is deleted, and the concatenation is handed to the STT collaborator
as `pcm_s16le` at 16000Hz; with no entry or zero accumulated chunks nothing
is handed over, no error is raised, and the map is untouched. -/
theorem c8_transcribe_spec :
    (∀ (buffers : List (String × AudioBuffer)) (key : String) (buf : AudioBuffer),
        buffers.lookup key = some buf → buf.chunks ≠ [] →
        transcribeUserSpeech buffers key true =
          (deleteKey buffers key,
            some ⟨buf.chunks.flatten, "pcm_s16le", 16000, "en"⟩)) ∧
    (∀ (buffers : List (String × AudioBuffer)) (key : String) (buf : AudioBuffer),
        buffers.lookup key = some buf → buf.chunks = [] →
        transcribeUserSpeech buffers key true = (buffers, none)) ∧
    (∀ (buffers : List (String × AudioBuffer)) (key : String),
        buffers.lookup key = none →
        transcribeUserSpeech buffers key true = (buffers, none)) := by
  refine ⟨?_, ?_, ?_⟩
  · intro buffers key buf hlk hne
    simp only [transcribeUserSpeech, hlk]
    rw [if_neg (by simpa using hne), if_pos trivial]
  · intro buffers key buf hlk he
    simp only [transcribeUserSpeech, hlk]
    rw [if_pos (by simp [he])]
  · intro buffers key hlk
    simp only [transcribeUserSpeech, hlk]

/-- C8 witness: a map with one two-chunk session and one empty session. -/
theorem c8_transcribe_spec_witness :
    transcribeUserSpeech
        [("g-u", ⟨[[1, 2], [3, 4]], 5, 6, 0⟩), ("h-v", ⟨[], 0, 0, 0⟩)] "g-u" true =
      (deleteKey [("g-u", ⟨[[1, 2], [3, 4]], 5, 6, 0⟩), ("h-v", ⟨[], 0, 0, 0⟩)] "g-u",
        some ⟨(List.flatten [[1, 2], [3, 4]] : List Nat), "pcm_s16le", 16000, "en"⟩) ∧
      transcribeUserSpeech
        [("g-u", ⟨[[1, 2], [3, 4]], 5, 6, 0⟩), ("h-v", ⟨[], 0, 0, 0⟩)] "h-v" true =
      ([("g-u", ⟨[[1, 2], [3, 4]], 5, 6, 0⟩), ("h-v", ⟨[], 0, 0, 0⟩)], none) :=
  ⟨c8_transcribe_spec.1 _ "g-u" ⟨[[1, 2], [3, 4]], 5, 6, 0⟩ rfl (by simp),
    c8_transcribe_spec.2.1 _ "h-v" ⟨[], 0, 0, 0⟩ rfl rfl⟩
